import Mathlib

set_option maxRecDepth 4000

/-!
Shallow embedding of `src/rss_telegram.py` (an RSS → Telegram notification
bot) and proofs about its diff-and-dispatch engine.

Conventions used throughout:
* Python strings are `String` (Python `len` counts code points, as does
  `String.length`, so the 4096-character Telegram bound translates directly).
* Python dicts (which preserve insertion order) are association lists
  `List (String × α)` with `dlookup` / `setdefault` / `dappend` mirroring
  `d[k]`, `d.setdefault(k, v)` and `d[k].append(x)`.
* External collaborators (feedparser, the AniList image lookup, the Telegram
  transport) are oracles passed in as functions, per the interface contracts
  of the specification.
* The regex rewrites in `clean_title` and `strip_html` are embedded as
  character-list scanners; `\s` and `str.split()` are modelled on the six
  ASCII whitespace characters (the inputs of interest are ASCII).
-/

/-- Telegram's hard message-size constant, `MAX_MESSAGE_LENGTH = 4096`. -/
def MAX_MESSAGE_LENGTH : Nat := 4096

/-- ASCII whitespace as matched by the regex class `\s` and `str.split()`. -/
def pySpace (c : Char) : Bool :=
  c == ' ' || c == '\t' || c == '\n' || c == '\r' || c == '\x0b' || c == '\x0c'

/-- Python truthiness of `s.strip()` being empty (in `if not
feed_url.strip(): continue`): true iff every character is whitespace, i.e.
the stripped string is empty. -/
def pyStripEmpty (s : String) : Bool := s.data.all pySpace

/-- Scanner for the lazy group `.*?` followed by a closing delimiter `cc`:
returns the remainder after the first `cc`, failing on a newline (which `.`
does not match) or end of input. -/
def scanClose (cc : Char) : List Char → Option (List Char)
  | [] => none
  | c :: rest =>
    if c = cc then some rest
    else if c = '\n' then none
    else scanClose cc rest

/-- Fuelled worker for `re.sub(r'OC.*?CC', '', s)` with delimiters `oc`/`cc`
(used for `\[.*?\]` and `\(.*?\)` in `clean_title`): scanning left to right,
each opening delimiter with a matching close on the same line is removed
together with the enclosed text; an unmatched opener is kept. The fuel is the
input length, which bounds the number of steps since every step consumes at
least one character. -/
def removeDelimitedAux (oc cc : Char) : Nat → List Char → List Char
  | 0, l => l
  | _ + 1, [] => []
  | fuel + 1, c :: rest =>
    if c = oc then
      match scanClose cc rest with
      | some rem => removeDelimitedAux oc cc fuel rem
      | none => c :: removeDelimitedAux oc cc fuel rest
    else c :: removeDelimitedAux oc cc fuel rest

/-- Embedding of `re.sub(r'OC.*?CC', '', s)`; see `removeDelimitedAux`. -/
def removeDelimited (oc cc : Char) (l : List Char) : List Char :=
  removeDelimitedAux oc cc l.length l

/-- Embedding of `re.sub(r'\s*-\s*\d+\s*$', '', s)` operating on the reversed
character list: peel trailing whitespace, at least one digit, optional
whitespace and a `-` (together with the whitespace run preceding the `-`,
which the leading `\s*` of the anchored pattern absorbs); if any required
part is missing the input is returned unchanged. -/
def stripDashNumRev (r : List Char) : List Char :=
  match r.dropWhile pySpace with
  | [] => r
  | c :: tl =>
    if c.isDigit then
      match ((c :: tl).dropWhile Char.isDigit).dropWhile pySpace with
      | '-' :: r4 => r4.dropWhile pySpace
      | _ => r
    else r

/-- Embedding of `re.sub(r'\s*Episode\s*\d+$', '', s, flags=re.IGNORECASE)`
on the reversed character list: at least one trailing digit, optional
whitespace, the seven letters of `Episode` reversed (case-insensitively), and
the whitespace run absorbed by the leading `\s*`. -/
def stripEpisodeRev (r : List Char) : List Char :=
  match r with
  | [] => r
  | c :: _ =>
    if c.isDigit then
      match (r.dropWhile Char.isDigit).dropWhile pySpace with
      | e1 :: d1 :: o1 :: s1 :: i1 :: p1 :: e2 :: rest =>
        if e1.toLower = 'e' && d1.toLower = 'd' && o1.toLower = 'o'
            && s1.toLower = 's' && i1.toLower = 'i' && p1.toLower = 'p'
            && e2.toLower = 'e' then
          rest.dropWhile pySpace
        else r
      | _ => r
    else r

/-- Single-pass embedding of `' '.join(s.split())`: whitespace runs collapse
to a single separating space, leading and trailing whitespace disappears.
`emitted` records whether a word character has been output, `sep` whether a
separating space is pending before the next word character. -/
def collapseWsAux : Bool → Bool → List Char → List Char
  | _, _, [] => []
  | emitted, sep, c :: rest =>
    if pySpace c then collapseWsAux emitted emitted rest
    else if sep then ' ' :: c :: collapseWsAux true false rest
    else c :: collapseWsAux true false rest

/-- Embedding of `clean_title` (source lines 41–49): remove `[...]` and
`(...)` segments, strip a trailing `- N` suffix, strip a trailing
case-insensitive `Episode N` suffix, then collapse whitespace
(`' '.join(cleaned.split()).strip()`; the final `.strip()` is the identity
because the output of `' '.join(s.split())` never has leading or trailing
whitespace, so it is not re-modelled here). -/
def clean_title (title : String) : String :=
  let c1 := removeDelimited ('[') (']') title.data
  let c2 := removeDelimited ('(') (')') c1
  let c3 := (stripDashNumRev c2.reverse).reverse
  let c4 := (stripEpisodeRev c3.reverse).reverse
  String.mk (collapseWsAux false false c4)

/-- Scanner for the rest of the tag pattern `[^>]+>` after its first
character: returns the remainder after the first `>`. -/
def tagClose : List Char → Option (List Char)
  | [] => none
  | c :: rest => if c = '>' then some rest else tagClose rest

/-- Fuelled worker for `re.sub(r'<[^>]+>', '', s)`: a `<` followed by at
least one non-`>` character and then a `>` is removed with everything in
between; a `<` that cannot be completed to a tag is kept. -/
def removeTagsAux : Nat → List Char → List Char
  | 0, l => l
  | _ + 1, [] => []
  | fuel + 1, c :: rest =>
    if c = '<' then
      match rest with
      | [] => [c]
      | d :: rest2 =>
        if d = '>' then c :: removeTagsAux fuel rest
        else
          match tagClose (d :: rest2) with
          | some rem => removeTagsAux fuel rem
          | none => c :: removeTagsAux fuel rest
    else c :: removeTagsAux fuel rest

/-- Embedding of `re.sub(r'<[^>]+>', '', s)`; see `removeTagsAux`. -/
def removeTags (l : List Char) : List Char := removeTagsAux l.length l

/-- Model of Python's `html.unescape` at the interface boundary: the five
predefined XML character references are replaced and all other text passes
through unchanged. The source defers to the stdlib's full HTML5 entity
table; no claim in this development depends on entries beyond this core
subset, and the concrete inputs used below contain no character references. -/
def html_unescape : List Char → List Char
  | '&' :: 'a' :: 'm' :: 'p' :: ';' :: rest => '&' :: html_unescape rest
  | '&' :: 'l' :: 't' :: ';' :: rest => '<' :: html_unescape rest
  | '&' :: 'g' :: 't' :: ';' :: rest => '>' :: html_unescape rest
  | '&' :: 'q' :: 'u' :: 'o' :: 't' :: ';' :: rest => '"' :: html_unescape rest
  | '&' :: '#' :: '3' :: '9' :: ';' :: rest => '\x27' :: html_unescape rest
  | c :: rest => c :: html_unescape rest
  | [] => []

/-- Embedding of `strip_html` (source lines 100–106): remove HTML tags,
unescape entities, and normalize whitespace with `' '.join(text.split())`. -/
def strip_html (s : String) : String :=
  String.mk (collapseWsAux false false (html_unescape (removeTags s.data)))

/-- The description-rendering step shared verbatim by both strategies
(source lines 199–202 and 233–236): `desc = strip_html(description)`, and
`if len(desc) > 150: desc = desc[:147] + '...'`. -/
def truncated_desc (d : String) : String :=
  let desc := strip_html d
  if desc.length > 150 then desc.take 147 ++ ("...") else desc

/-- Configuration flags read from the environment at startup (source lines
29–32): `INCLUDE_DESCRIPTION`, `TELEGRAM_MESSAGE_LINKS_BUTTON` and
`TELEGRAM_GROUPED_MESSAGES`. -/
structure Config where
  include_description : Bool
  links_button : Bool
  grouped : Bool

/-- The per-entry record accumulated by `check_feeds` (source line 301):
`{'title': ..., 'link': ..., 'description': ..., 'image_url': ...}`. -/
structure Entry where
  title : String
  link : String
  description : String
  image_url : Option String

/-- The grouped-strategy feed header (source line 193):
`f"📢 *New content from {feed_title}*\n\n"`. -/
def grouped_header (feed_title : String) : String :=
  ("📢 *New content from ") ++ feed_title ++ ("*\n\n")

/-- One rendered entry block of the grouped strategy (source lines 197–208):
a bulleted bold title line, an optional italic truncated description line,
and a link line (Markdown `[Open Link]` reference or bare URL). -/
def render_block (cfg : Config) (entry : Entry) : String :=
  let t1 := ("• *") ++ entry.title ++ ("*\n")
  let t2 :=
    if cfg.include_description && entry.description != ("") then
      t1 ++ ("  _") ++ truncated_desc entry.description ++ ("_\n")
    else t1
  if cfg.links_button then
    t2 ++ ("\n  [Open Link](") ++ entry.link ++ (")\n\n")
  else
    t2 ++ ("\n  ") ++ entry.link ++ ("\n\n")

/-- The grouped-strategy buffer loop over one feed's entries (source lines
196–217), returning the successive values of `entries_text` that are sent:
before appending a block the source tests
`len(header) + len(entries_text) + len(entry_text) > MAX_MESSAGE_LENGTH`;
on overflow the current buffer is emitted and the block starts a fresh
buffer, otherwise the block is appended; a non-empty final buffer is
emitted after the loop. Since each outbound text is `header + entries_text`
and `len` is additive, the length test is carried with the header length
`hlen` and the header itself is prepended in `grouped_feed_messages`. -/
def grouped_go (cfg : Config) (hlen : Nat) (buffer : String) :
    List Entry → List String
  | [] => if buffer != ("") then [buffer] else []
  | e :: rest =>
    let block := render_block cfg e
    if hlen + buffer.length + block.length > MAX_MESSAGE_LENGTH then
      buffer :: grouped_go cfg hlen block rest
    else
      grouped_go cfg hlen (buffer ++ block) rest

/-- All text messages the grouped strategy sends for one feed (source lines
189–217): nothing for an empty entry list (`if not entries: continue`),
otherwise `header + body` for each emitted buffer. -/
def grouped_feed_messages (cfg : Config) (feed_title : String)
    (entries : List Entry) : List String :=
  if entries.isEmpty then []
  else
    let header := grouped_header feed_title
    (grouped_go cfg header.length ("") entries).map (fun b => header ++ b)

/-- Embedding of `send_grouped_messages` (source lines 183–221) as the list
of message texts passed to `send_telegram_message`, in order, over the
insertion-ordered `messages_by_feed` dict. -/
def send_grouped_messages (cfg : Config)
    (messages_by_feed : List (String × List Entry)) : List String :=
  (messages_by_feed.map (fun p => grouped_feed_messages cfg p.1 p.2)).flatten

/-- An outbound transport call: `text message replyMarkup` for
`send_telegram_message` and `photo url caption replyMarkup` for
`send_photo_message`; `replyMarkup = some u` models an
`InlineKeyboardMarkup` with a single "Open Link" button for URL `u`. -/
inductive SendEvent where
  | text : String → Option String → SendEvent
  | photo : String → String → Option String → SendEvent

/-- The single-strategy message before the link-handling branch (source
lines 231–237): header, bold title, optional italic truncated description. -/
def single_base (cfg : Config) (feed_title : String) (e : Entry) : String :=
  let message := ("📢 *New content from ") ++ feed_title ++ ("*\n\n*")
    ++ e.title ++ ("*\n")
  if cfg.include_description && e.description != ("") then
    message ++ ("  _") ++ truncated_desc e.description ++ ("_\n")
  else message

/-- The single-strategy reply markup (source lines 239–241): an "Open Link"
button iff `TELEGRAM_MESSAGE_LINKS_BUTTON` is set. -/
def single_markup (cfg : Config) (e : Entry) : Option String :=
  if cfg.links_button then some e.link else none

/-- The single-strategy rendered message text (source lines 239–243): when
the button flag is off the link is appended inline as `f"\n{link}"`,
otherwise the text is left as `single_base`. -/
def single_message (cfg : Config) (feed_title : String) (e : Entry) : String :=
  if cfg.links_button then single_base cfg feed_title e
  else single_base cfg feed_title e ++ ("\n") ++ e.link

/-- The transport calls the single strategy makes for one entry (source
lines 246–254): with a resolved image, a photo send whose caption is the
rendered message, followed — when that send fails — by a text fallback with
the same message and markup; without an image, a single text send.
`photoOk` is the success oracle of the external `send_photo_message`. -/
def single_entry_events (cfg : Config) (photoOk : String → String → Bool)
    (feed_title : String) (e : Entry) : List SendEvent :=
  let message := single_message cfg feed_title e
  let rm := single_markup cfg e
  match e.image_url with
  | some url =>
    if photoOk url message then [SendEvent.photo url message rm]
    else [SendEvent.photo url message rm, SendEvent.text message rm]
  | none => [SendEvent.text message rm]

/-- Embedding of `send_single_messages` (source lines 223–258) as the
ordered list of transport calls. -/
def send_single_messages (cfg : Config) (photoOk : String → String → Bool)
    (messages_by_feed : List (String × List Entry)) : List SendEvent :=
  (messages_by_feed.map
    (fun p => (p.2.map (single_entry_events cfg photoOk p.1)).flatten)).flatten

/-- Lookup in an insertion-ordered dict, Python `d.get(k)`. -/
def dlookup {α : Type} (k : String) : List (String × α) → Option α
  | [] => none
  | p :: rest => if p.1 = k then some p.2 else dlookup k rest

/-- Python `d[k]` for the list-valued dicts of the source, where every read
is preceded by a `setdefault` (absent keys behave as the empty list). -/
def dictGet {α : Type} (d : List (String × List α)) (k : String) : List α :=
  (dlookup k d).getD []

/-- Python `d.setdefault(k, v)`: insert `(k, v)` at the end iff `k` is
absent (dicts preserve insertion order). -/
def setdefault {α : Type} (d : List (String × α)) (k : String) (v : α) :
    List (String × α) :=
  if (dlookup k d).isSome then d else d ++ [(k, v)]

/-- Python `d[k].append(x)` on a list-valued dict whose key `k` is present
(the source guarantees presence by a prior `setdefault`; on an absent key
this is a no-op where Python would raise). -/
def dappend {α : Type} (d : List (String × List α)) (k : String) (x : α) :
    List (String × List α) :=
  d.map (fun p => if p.1 = k then (p.1, p.2 ++ [x]) else p)

/-- The persisted dedup store `sent_items`: feed URL → list of delivered
entry identifiers. -/
abbrev SeenSet := List (String × List String)

/-- A parsed feed entry as exposed by the external feedparser contract:
optional `id`, `link`, `title`, `description` and `summary` attributes
(`none` models an absent attribute). -/
structure FeedEntry where
  id? : Option String
  link? : Option String
  title? : Option String
  description? : Option String
  summary? : Option String

/-- A parsed feed: optional `feed.title` and the ordered entry list. -/
structure Feed where
  title? : Option String
  entries : List FeedEntry

/-- Source line 289: `entry.id if hasattr(entry, 'id') else entry.link`;
`none` means both attributes are absent, in which case the Python raises an
`AttributeError` that the per-feed handler catches. -/
def entry_id (e : FeedEntry) : Option String :=
  e.id? <|> e.link?

/-- Source line 297: `getattr(entry, 'description', '') or
getattr(entry, 'summary', '')` (the Python `or` falls through on the empty
string). -/
def entry_description (e : FeedEntry) : String :=
  let d := (e.description?).getD ("")
  if d = ("") then (e.summary?).getD ("") else d

/-- The mutable state of one `check_feeds` cycle: the `sent_items` dict and
the `messages_by_feed` accumulator (feed title → new entry records). -/
structure CycleState where
  sent_items : SeenSet
  messages_by_feed : List (String × List Entry)

/-- The per-entry loop of `check_feeds` (source lines 288–302): skip entries
whose identifier is already recorded for this feed URL; otherwise build the
entry record (title defaulting to `"No title"`, link to `""`, description
only when `INCLUDE_DESCRIPTION`, image from the resolver oracle `imageOf`),
append it under the feed title, and record the identifier. An entry with
neither `id` nor `link` raises; the surrounding handler catches it, so the
loop stops there keeping the state mutated so far. -/
def process_entries (cfg : Config) (imageOf : String → Option String)
    (feed_url feed_title : String) :
    List FeedEntry → CycleState → CycleState
  | [], st => st
  | e :: rest, st =>
    match entry_id e with
    | none => st
    | some eid =>
      if eid ∈ dictGet st.sent_items feed_url then
        process_entries cfg imageOf feed_url feed_title rest st
      else
        let title := (e.title?).getD ("No title")
        let link := (e.link?).getD ("")
        let description :=
          if cfg.include_description then entry_description e else ("")
        let image_url := imageOf title
        process_entries cfg imageOf feed_url feed_title rest
          ⟨dappend st.sent_items feed_url eid,
            dappend st.messages_by_feed feed_title
              ⟨title, link, description, image_url⟩⟩

/-- One iteration of the feed loop of `check_feeds` (source lines 271–304):
skip blank URLs; a fetch/parse failure (`fetchOf feed_url = none`, the
`except` branch) leaves the state untouched; an empty entry list is skipped;
otherwise `feed_title` defaults to the URL, both dicts get their key
installed by `setdefault`, and the entries are processed. -/
def process_feed (cfg : Config) (imageOf : String → Option String)
    (fetchOf : String → Option Feed) (st : CycleState) (feed_url : String) :
    CycleState :=
  if pyStripEmpty feed_url then st
  else
    match fetchOf feed_url with
    | none => st
    | some feed =>
      if feed.entries.isEmpty then st
      else
        let feed_title := (feed.title?).getD feed_url
        process_entries cfg imageOf feed_url feed_title feed.entries
          ⟨setdefault st.sent_items feed_url [],
            setdefault st.messages_by_feed feed_title []⟩

/-- The diff phase of `check_feeds` (source lines 260–304): fold the feed
loop over the configured feed URLs, starting from the loaded `sent_items`
and an empty `messages_by_feed`. An empty feed list returns early with the
state unchanged, which coincides with the empty fold. -/
def check_feeds (cfg : Config) (imageOf : String → Option String)
    (fetchOf : String → Option Feed) (feeds : List String) (si0 : SeenSet) :
    CycleState :=
  feeds.foldl (process_feed cfg imageOf fetchOf) ⟨si0, []⟩

/-- One full cycle, diff followed by dispatch (source lines 260–310 and the
loop body at 329–333): the returned `sent_items` is what `main_async`
persists, and the events are the transport calls of the configured strategy
(grouped messages are sent without reply markup). -/
def run_cycle (cfg : Config) (imageOf : String → Option String)
    (fetchOf : String → Option Feed) (photoOk : String → String → Bool)
    (feeds : List String) (si0 : SeenSet) : SeenSet × List SendEvent :=
  let r := check_feeds cfg imageOf fetchOf feeds si0
  let events :=
    if cfg.grouped then
      (send_grouped_messages cfg r.messages_by_feed).map
        (fun m => SendEvent.text m none)
    else send_single_messages cfg photoOk r.messages_by_feed
  (r.sent_items, events)

/-- Grouped-mode configuration with descriptions and link buttons off. -/
def cfgG : Config := ⟨false, false, true⟩

/-- Single-mode configuration with descriptions and link buttons off. -/
def cfgS : Config := ⟨false, false, false⟩

/-- A 5000-character title, used to build an oversized rendered block. -/
def bigTitle : String := String.mk (List.replicate 5000 ('a'))

/-- An entry whose rendered block alone exceeds the message size limit. -/
def bigEntry : Entry := ⟨bigTitle, ("L"), (""), none⟩

/-- A small entry with no image. -/
def smallEntry : Entry := ⟨("T"), ("L"), (""), none⟩

/-- An entry carrying a resolved image URL. -/
def imgEntry : Entry := ⟨("T"), ("http://x"), (""), some ("img")⟩

/-- A transport oracle on which every photo send fails. -/
def okFail : String → String → Bool := fun _ _ => false

/-- A 4100-character feed title, longer than the message limit by itself. -/
def bigName : String := String.mk (List.replicate 4100 ('x'))

/-- A 151-character plain description (no markup, no whitespace). -/
def d151 : String := String.mk (List.replicate 151 ('d'))

/-- A prefix-closed record of which entries of a feed are already seen: up
to the first entry without an identifier (where the entry loop aborts),
every identifier is present in the seen list of feed URL `u`. -/
def coveredEntries (si : SeenSet) (u : String) : List FeedEntry → Prop
  | [] => True
  | e :: rest =>
    match entry_id e with
    | none => True
    | some eid => eid ∈ dictGet si u ∧ coveredEntries si u rest

/-- A concrete one-entry feed for the cycle witnesses. -/
def wFeed : Feed :=
  ⟨some ("FT"), [⟨some ("id1"), some ("l"), some ("T"), none, none⟩]⟩

/-- Fetch oracle returning `wFeed` for every URL. -/
def wFetch : String → Option Feed := fun _ => some wFeed

/-- Image resolver oracle that never finds an image. -/
def noImage : String → Option String := fun _ => none

/-- Fetch oracle on which every fetch fails. -/
def noFeed : String → Option Feed := fun _ => none

theorem sjoin_cons (s : String) (l : List String) :
    String.join (s :: l) = s ++ String.join l := by
  apply String.ext
  simp [String.join_eq, String.data_append]

theorem slength_eq_zero (s : String) : s.length = 0 ↔ s = ("") := by
  cases s with
  | mk d =>
    cases d with
    | nil => simp
    | cons c tl =>
      simp only [String.length]
      constructor
      · intro h; simp at h
      · intro h
        have : (String.mk (c :: tl)).data = ([] : List Char) := by rw [h]
        simp at this

theorem render_block_length_pos (cfg : Config) (e : Entry) :
    0 < (render_block cfg e).length := by
  have h3 : (("• *") : String).length = 3 := rfl
  unfold render_block
  cases h1 : cfg.include_description && e.description != ("") <;>
    cases h2 : cfg.links_button <;>
      simp [h1, h2, String.length_append] <;>
        omega

theorem render_block_ne_empty (cfg : Config) (e : Entry) :
    render_block cfg e ≠ ("") := by
  intro h
  have hp := render_block_length_pos cfg e
  rw [h] at hp
  simp at hp

theorem grouped_go_join (cfg : Config) (hl : Nat) (es : List Entry) :
    ∀ b, String.join (grouped_go cfg hl b es)
      = b ++ String.join (es.map (render_block cfg)) := by
  induction es with
  | nil =>
    intro b
    by_cases hb : b = ("")
    · subst hb; simp [grouped_go]
    · simp [grouped_go, hb, sjoin_cons, String.append_empty]
  | cons e rest ih =>
    intro b
    simp only [grouped_go, List.map_cons]
    by_cases hc : hl + b.length + (render_block cfg e).length > MAX_MESSAGE_LENGTH
    · simp [hc, sjoin_cons, ih, String.append_assoc]
    · simp [hc, sjoin_cons, ih, String.append_assoc]

theorem grouped_go_bound (cfg : Config) (hl : Nat) (es : List Entry) :
    ∀ b, hl + b.length ≤ MAX_MESSAGE_LENGTH →
      (∀ e ∈ es, hl + (render_block cfg e).length ≤ MAX_MESSAGE_LENGTH) →
      ∀ m ∈ grouped_go cfg hl b es, hl + m.length ≤ MAX_MESSAGE_LENGTH := by
  induction es with
  | nil =>
    intro b hb _ m hm
    by_cases hbe : b = ("")
    · simp [grouped_go, hbe] at hm
    · simp [grouped_go, hbe] at hm
      subst hm; exact hb
  | cons e rest ih =>
    intro b hb hes m hm
    simp only [grouped_go] at hm
    by_cases hc : hl + b.length + (render_block cfg e).length > MAX_MESSAGE_LENGTH
    · rw [if_pos hc] at hm
      rcases List.mem_cons.mp hm with h | h
      · subst h; exact hb
      · exact ih (render_block cfg e) (hes e (by simp))
          (fun x hx => hes x (by simp [hx])) m h
    · rw [if_neg hc] at hm
      refine ih (b ++ render_block cfg e) ?_ (fun x hx => hes x (by simp [hx])) m hm
      rw [String.length_append]
      omega

theorem grouped_go_ne_nil (cfg : Config) (hl : Nat) (es : List Entry) :
    ∀ b, (b ≠ ("") ∨ es ≠ []) → grouped_go cfg hl b es ≠ [] := by
  induction es with
  | nil =>
    intro b hb
    rcases hb with h | h
    · simp [grouped_go, h]
    · simp at h
  | cons e rest ih =>
    intro b _
    simp only [grouped_go]
    by_cases hc : hl + b.length + (render_block cfg e).length > MAX_MESSAGE_LENGTH
    · simp [hc]
    · rw [if_neg hc]
      refine ih (b ++ render_block cfg e) (Or.inl ?_)
      intro h
      have : (b ++ render_block cfg e).length = 0 := by rw [h]; simp
      rw [String.length_append] at this
      have := render_block_length_pos cfg e
      omega

theorem grouped_go_two (cfg : Config) (hl : Nat) (es : List Entry) :
    ∀ b, es ≠ [] →
      MAX_MESSAGE_LENGTH <
        hl + b.length + (String.join (es.map (render_block cfg))).length →
      2 ≤ (grouped_go cfg hl b es).length := by
  induction es with
  | nil => intro b h _; exact absurd rfl h
  | cons e rest ih =>
    intro b _ hover
    simp only [grouped_go]
    rw [List.map_cons, sjoin_cons, String.length_append] at hover
    by_cases hc : hl + b.length + (render_block cfg e).length > MAX_MESSAGE_LENGTH
    · rw [if_pos hc]
      rcases rest with _ | ⟨e2, rest2⟩
      · simp only [List.length_cons]
        have hne := grouped_go_ne_nil cfg hl [] (render_block cfg e)
          (Or.inl (render_block_ne_empty cfg e))
        have := List.length_pos.mpr hne
        omega
      · simp only [List.length_cons]
        have hne := grouped_go_ne_nil cfg hl (e2 :: rest2) (render_block cfg e)
          (Or.inr (by simp))
        have := List.length_pos.mpr hne
        omega
    · rw [if_neg hc]
      rcases rest with _ | ⟨e2, rest2⟩
      · exfalso
        simp only [List.map_nil] at hover
        have : String.length (String.join []) = 0 := by simp [String.join]
        omega
      · refine ih (b ++ render_block cfg e) (by simp) ?_
        rw [String.length_append]
        omega

theorem grouped_feed_messages_bound (cfg : Config) (ft : String)
    (entries : List Entry)
    (h : ∀ e ∈ entries,
      (grouped_header ft).length + (render_block cfg e).length
        ≤ MAX_MESSAGE_LENGTH) :
    ∀ m ∈ grouped_feed_messages cfg ft entries,
      m.length ≤ MAX_MESSAGE_LENGTH := by
  intro m hm
  unfold grouped_feed_messages at hm
  rcases entries with _ | ⟨e0, rest⟩
  · simp at hm
  · simp only [List.isEmpty_cons, if_false, Bool.false_eq_true] at hm
    rw [List.mem_map] at hm
    obtain ⟨b, hb, rfl⟩ := hm
    have hhl : (grouped_header ft).length + (("") : String).length
        ≤ MAX_MESSAGE_LENGTH := by
      have := h e0 (by simp)
      have hpos := render_block_length_pos cfg e0
      simp only [String.length]
      simp
      omega
    have := grouped_go_bound cfg (grouped_header ft).length (e0 :: rest)
      ("") hhl h b hb
    rw [String.length_append]
    omega


theorem bigTitle_length : bigTitle.length = 5000 := by
  show (List.replicate 5000 ('a')).length = 5000
  rw [List.length_replicate]

theorem bigName_length : bigName.length = 4100 := by
  show (List.replicate 4100 ('x')).length = 4100
  rw [List.length_replicate]

theorem bigEntry_block_length :
    (render_block cfgG bigEntry).length = 5011 := by
  simp [render_block, cfgG, bigEntry, String.length_append, bigTitle_length]
  decide

theorem grouped_header_F_length : (grouped_header ("F")).length = 24 := by
  decide

theorem bigName_header_length :
    (grouped_header bigName).length = 4123 := by
  simp [grouped_header, String.length_append, bigName_length]
  decide

theorem grouped_go_flush (cfg : Config) (hl : Nat) (b : String) (e : Entry)
    (rest : List Entry)
    (h : hl + b.length + (render_block cfg e).length > MAX_MESSAGE_LENGTH) :
    grouped_go cfg hl b (e :: rest)
      = b :: grouped_go cfg hl (render_block cfg e) rest := by
  simp only [grouped_go]
  rw [if_pos h]

theorem grouped_go_append_step (cfg : Config) (hl : Nat) (b : String)
    (e : Entry) (rest : List Entry)
    (h : ¬ hl + b.length + (render_block cfg e).length > MAX_MESSAGE_LENGTH) :
    grouped_go cfg hl b (e :: rest)
      = grouped_go cfg hl (b ++ render_block cfg e) rest := by
  simp only [grouped_go]
  rw [if_neg h]

theorem grouped_go_nil_ne (cfg : Config) (hl : Nat) (b : String)
    (h : b ≠ ("")) : grouped_go cfg hl b [] = [b] := by
  simp [grouped_go, h]

theorem big_messages :
    send_grouped_messages cfgG [(("F"), [bigEntry])]
      = [grouped_header ("F"),
          grouped_header ("F") ++ render_block cfgG bigEntry] := by
  have hcond : (grouped_header ("F")).length + (("") : String).length
      + (render_block cfgG bigEntry).length > MAX_MESSAGE_LENGTH := by
    rw [grouped_header_F_length, bigEntry_block_length]
    decide
  have hne : render_block cfgG bigEntry ≠ ("") :=
    render_block_ne_empty cfgG bigEntry
  simp only [send_grouped_messages, grouped_feed_messages, List.map_cons,
    List.map_nil, List.flatten_cons, List.flatten_nil, List.append_nil,
    List.isEmpty_cons, Bool.false_eq_true, if_false]
  rw [grouped_go_flush cfgG _ _ bigEntry [] hcond,
    grouped_go_nil_ne cfgG _ _ hne]
  simp [String.append_empty]

/-- C1 (counterexample). The claim that every text message emitted by the
grouped strategy has rendered length at most 4096 characters is false: an
entry whose rendered block alone exceeds the limit becomes the new buffer
after the overflow flush and is later emitted, together with the header, as
one message of length 5035. -/
theorem c1_counterexample :
    ¬ (∀ (cfg : Config) (mbf : List (String × List Entry)),
        ∀ m ∈ send_grouped_messages cfg mbf,
          m.length ≤ MAX_MESSAGE_LENGTH) := by
  intro h
  have hmem : (grouped_header ("F") ++ render_block cfgG bigEntry)
      ∈ send_grouped_messages cfgG [(("F"), [bigEntry])] := by
    rw [big_messages]
    simp
  have hlen := h cfgG [(("F"), [bigEntry])] _ hmem
  rw [String.length_append, grouped_header_F_length,
    bigEntry_block_length] at hlen
  exact absurd hlen (by decide)

/-- C1 (amended). Every text message emitted by the grouped strategy has
rendered length at most 4096 characters, provided each individual entry
block fits within the limit together with its feed header. -/
theorem c1_grouped_size_bound (cfg : Config)
    (mbf : List (String × List Entry))
    (hblocks : ∀ p ∈ mbf, ∀ e ∈ p.2,
      (grouped_header p.1).length + (render_block cfg e).length
        ≤ MAX_MESSAGE_LENGTH) :
    ∀ m ∈ send_grouped_messages cfg mbf, m.length ≤ MAX_MESSAGE_LENGTH := by
  intro m hm
  unfold send_grouped_messages at hm
  rw [List.mem_flatten] at hm
  obtain ⟨l, hl, hml⟩ := hm
  rw [List.mem_map] at hl
  obtain ⟨p, hp, rfl⟩ := hl
  exact grouped_feed_messages_bound cfg p.1 p.2 (hblocks p hp) m hml

/-- Witness for `c1_grouped_size_bound` at a concrete one-feed input. -/
theorem c1_grouped_size_bound_witness :
    (grouped_header ("F") ++ render_block cfgG smallEntry).length
      ≤ MAX_MESSAGE_LENGTH :=
  c1_grouped_size_bound cfgG [(("F"), [smallEntry])] (by decide)
    (grouped_header ("F") ++ render_block cfgG smallEntry) (by decide)

/-- C4 (counterexample). As stated the claim is false for a feed whose
header alone exceeds the limit while its entry list is empty: the combined
rendered content (header plus all zero blocks) exceeds 4096 characters,
but the strategy emits no message at all for that feed. -/
theorem c4_counterexample :
    ¬ (∀ (cfg : Config) (ft : String) (entries : List Entry),
        MAX_MESSAGE_LENGTH <
          (grouped_header ft).length
            + (String.join (entries.map (render_block cfg))).length →
        2 ≤ (grouped_feed_messages cfg ft entries).length) := by
  intro h
  have hover : MAX_MESSAGE_LENGTH <
      (grouped_header bigName).length
        + (String.join (([] : List Entry).map (render_block cfgG))).length := by
    rw [bigName_header_length]
    decide
  have := h cfgG bigName [] hover
  simp [grouped_feed_messages] at this

/-- C4 (amended). For every feed with at least one new entry whose combined
rendered content (header plus all entry blocks) exceeds 4096 characters,
the grouped strategy emits at least two messages; each message is the
header prepended to a body, and the concatenation of the bodies is exactly
the concatenation of all rendered entry blocks, in input order — every
entry once, no omissions, no duplicates. -/
theorem c4_grouped_overflow_split (cfg : Config) (ft : String)
    (entries : List Entry) (hne : entries ≠ [])
    (hover : MAX_MESSAGE_LENGTH <
      (grouped_header ft).length
        + (String.join (entries.map (render_block cfg))).length) :
    2 ≤ (grouped_feed_messages cfg ft entries).length ∧
      grouped_feed_messages cfg ft entries
        = (grouped_go cfg (grouped_header ft).length ("") entries).map
            (fun b => grouped_header ft ++ b) ∧
      String.join (grouped_go cfg (grouped_header ft).length ("") entries)
        = String.join (entries.map (render_block cfg)) := by
  have hmap : grouped_feed_messages cfg ft entries
      = (grouped_go cfg (grouped_header ft).length ("") entries).map
          (fun b => grouped_header ft ++ b) := by
    rcases entries with _ | ⟨e, rest⟩
    · exact absurd rfl hne
    · simp [grouped_feed_messages]
  refine ⟨?_, hmap, ?_⟩
  · rw [hmap, List.length_map]
    refine grouped_go_two cfg (grouped_header ft).length entries ("") hne ?_
    have h0 : (("") : String).length = 0 := rfl
    omega
  · rw [grouped_go_join]
    exact String.empty_append _

/-- Witness for `c4_grouped_overflow_split` at a concrete overflowing
one-entry feed. -/
theorem c4_grouped_overflow_split_witness :
    2 ≤ (grouped_feed_messages cfgG ("F") [bigEntry]).length ∧
      grouped_feed_messages cfgG ("F") [bigEntry]
        = (grouped_go cfgG (grouped_header ("F")).length ("") [bigEntry]).map
            (fun b => grouped_header ("F") ++ b) ∧
      String.join (grouped_go cfgG (grouped_header ("F")).length ("") [bigEntry])
        = String.join ([bigEntry].map (render_block cfgG)) :=
  c4_grouped_overflow_split cfgG ("F") [bigEntry] (by simp)
    (by
      rw [grouped_header_F_length, List.map_cons, List.map_nil, sjoin_cons,
        String.length_append, bigEntry_block_length]
      decide)

/-- C10. In the grouped strategy, when the first entry block of a feed
already overflows the limit together with the header, the first emitted
message is the bare header with no entry content: the overflow flush sends
the header concatenated with the still-empty buffer. -/
theorem c10_grouped_header_only_message (cfg : Config) (ft : String)
    (e : Entry) (rest : List Entry)
    (h : MAX_MESSAGE_LENGTH <
      (grouped_header ft).length + (render_block cfg e).length) :
    (grouped_feed_messages cfg ft (e :: rest)).head?
      = some (grouped_header ft) := by
  have h0 : (("") : String).length = 0 := rfl
  have hcond : (grouped_header ft).length + (("") : String).length
      + (render_block cfg e).length > MAX_MESSAGE_LENGTH := by omega
  simp only [grouped_feed_messages, List.isEmpty_cons, Bool.false_eq_true,
    if_false]
  rw [grouped_go_flush cfg (grouped_header ft).length ("") e rest hcond]
  simp [String.append_empty]

/-- Witness for `c10_grouped_header_only_message` at a concrete oversized
first entry. -/
theorem c10_grouped_header_only_message_witness :
    (grouped_feed_messages cfgG ("F") [bigEntry]).head?
      = some (grouped_header ("F")) :=
  c10_grouped_header_only_message cfgG ("F") bigEntry []
    (by rw [grouped_header_F_length, bigEntry_block_length]; decide)

/-- C8. Title normalization is the pure transform `clean_title`; on the
specified inputs it removes the bracketed tag and the trailing episode
suffixes and collapses whitespace exactly as claimed. -/
theorem c8_clean_title_normalization :
    clean_title ("[SubGroup] Show Name - 03") = ("Show Name") ∧
      clean_title ("Show Name Episode 5") = ("Show Name") ∧
      clean_title ("  Show   Name  ") = ("Show Name") :=
  ⟨by decide, by decide, by decide⟩

/-- C9 (counterexample). The claim that a long description is rendered as
its first 150 characters followed by an ellipsis is false: on a
151-character description the code keeps only the first 147 characters
before the three-dot ellipsis (the total is 150, not 153). -/
theorem c9_counterexample :
    ¬ (∀ d : String, 150 < (strip_html d).length →
        truncated_desc d = (strip_html d).take 150 ++ ("...")) := by
  intro h
  have h1 := h d151 (by decide)
  exact absurd h1 (by decide)

/-- C9 (amended). In both strategies the rendered description is the
stripped, whitespace-collapsed text truncated to its first 147 characters
followed by a three-character ellipsis when that text is longer than 150
characters, and is the text unmodified otherwise. -/
theorem c9_description_truncation (d : String) :
    (150 < (strip_html d).length →
      truncated_desc d = (strip_html d).take 147 ++ ("...")) ∧
    ((strip_html d).length ≤ 150 → truncated_desc d = strip_html d) := by
  simp only [truncated_desc]
  constructor
  · intro h
    rw [if_pos h]
  · intro h
    rw [if_neg (by omega)]

/-- Witness for `c9_description_truncation` on a long and a short input. -/
theorem c9_description_truncation_witness :
    truncated_desc d151 = (strip_html d151).take 147 ++ ("...") ∧
      truncated_desc ("short") = strip_html ("short") :=
  ⟨(c9_description_truncation d151).1 (by decide),
    (c9_description_truncation ("short")).2 (by decide)⟩

/-- C3 (counterexample). The claim that an entry with a resolved image has
its link omitted from the rendered message text is false: when the
links-button flag is off the source appends the link to the message before
the image branch, so the photo caption contains the link. -/
theorem c3_counterexample :
    ¬ (∀ (cfg : Config) (ft : String) (e : Entry) (url : String),
        e.image_url = some url →
        ¬ (e.link.data <:+: (single_message cfg ft e).data)) := by
  intro h
  exact h cfgS ("F") imgEntry ("img") rfl (by decide)

/-- C3 (amended). An entry with a resolved image URL is sent as a photo
whose caption is the rendered message; the link is kept out of that text
exactly when the links-button flag is on (the link then rides as the
"Open Link" button markup), and is appended inline when the flag is off. -/
theorem c3_single_image_link_handling (cfg : Config)
    (photoOk : String → String → Bool) (ft : String) (e : Entry)
    (url : String) (himg : e.image_url = some url) :
    (single_entry_events cfg photoOk ft e).head?
        = some (SendEvent.photo url (single_message cfg ft e)
            (single_markup cfg e)) ∧
      (cfg.links_button = true →
        single_message cfg ft e = single_base cfg ft e ∧
          single_markup cfg e = some e.link) ∧
      (cfg.links_button = false →
        single_message cfg ft e
            = single_base cfg ft e ++ ("\n") ++ e.link ∧
          single_markup cfg e = none) := by
  refine ⟨?_, ?_, ?_⟩
  · simp only [single_entry_events, himg]
    by_cases hok : photoOk url (single_message cfg ft e) = true
    · simp [hok]
    · simp [hok]
  · intro hb
    simp [single_message, single_markup, hb]
  · intro hb
    simp [single_message, single_markup, hb]

/-- Witness for `c3_single_image_link_handling` at a concrete image entry
with the links-button flag off. -/
theorem c3_single_image_link_handling_witness :
    (single_entry_events cfgS (fun _ _ => true) ("F") imgEntry).head?
        = some (SendEvent.photo ("img") (single_message cfgS ("F") imgEntry)
            (single_markup cfgS imgEntry)) ∧
      single_message cfgS ("F") imgEntry
          = single_base cfgS ("F") imgEntry ++ ("\n") ++ imgEntry.link ∧
        single_markup cfgS imgEntry = none :=
  ⟨(c3_single_image_link_handling cfgS (fun _ _ => true) ("F") imgEntry
      ("img") rfl).1,
    (c3_single_image_link_handling cfgS (fun _ _ => true) ("F") imgEntry
      ("img") rfl).2.2 rfl⟩

/-- C7. In the single strategy, when the photo send of an entry with a
resolved image fails, a text send follows with exactly the same caption and
the same reply markup; and the SeenSet produced by the cycle does not
depend on the transport oracle at all, so the entry counts as processed
either way. -/
theorem c7_single_photo_fallback (cfg : Config)
    (photoOk : String → String → Bool) (ft : String) (e : Entry)
    (url : String) (himg : e.image_url = some url)
    (hfail : photoOk url (single_message cfg ft e) = false) :
    single_entry_events cfg photoOk ft e
        = [SendEvent.photo url (single_message cfg ft e)
            (single_markup cfg e),
          SendEvent.text (single_message cfg ft e) (single_markup cfg e)] ∧
      ∀ (imageOf : String → Option String) (fetchOf : String → Option Feed)
        (photoOk2 : String → String → Bool) (feeds : List String)
        (si0 : SeenSet),
        (run_cycle cfg imageOf fetchOf photoOk feeds si0).1
          = (run_cycle cfg imageOf fetchOf photoOk2 feeds si0).1 := by
  constructor
  · simp [single_entry_events, himg, hfail]
  · intro imageOf fetchOf photoOk2 feeds si0
    rfl

/-- Witness for `c7_single_photo_fallback` at a concrete failing photo
send. -/
theorem c7_single_photo_fallback_witness :
    single_entry_events cfgS okFail ("F") imgEntry
      = [SendEvent.photo ("img") (single_message cfgS ("F") imgEntry)
          (single_markup cfgS imgEntry),
        SendEvent.text (single_message cfgS ("F") imgEntry)
          (single_markup cfgS imgEntry)] :=
  (c7_single_photo_fallback cfgS okFail ("F") imgEntry ("img") rfl rfl).1

theorem dlookup_dappend {α : Type} (d : List (String × List α))
    (k k2 : String) (x : α) :
    dlookup k (dappend d k2 x)
      = if k2 = k then (dlookup k d).map (fun l => l ++ [x])
        else dlookup k d := by
  induction d with
  | nil =>
    simp only [dappend, List.map_nil, dlookup]
    split <;> rfl
  | cons p rest ih =>
    obtain ⟨pk, pv⟩ := p
    simp only [dappend, List.map_cons] at ih ⊢
    by_cases h1 : pk = k2
    · subst h1
      by_cases h2 : pk = k
      · subst h2
        simp [dlookup]
      · simp only [if_pos rfl, dlookup]
        simp [h2, ih]
    · rw [if_neg h1]
      by_cases h2 : pk = k
      · subst h2
        have hk : ¬ k2 = pk := fun h => h1 h.symm
        simp [dlookup, hk]
      · simp [dlookup, h2, ih]

theorem dlookup_append {α : Type} (d1 d2 : List (String × α)) (k : String) :
    dlookup k (d1 ++ d2)
      = match dlookup k d1 with
        | some v => some v
        | none => dlookup k d2 := by
  induction d1 with
  | nil => simp [dlookup]
  | cons p rest ih =>
    by_cases h : p.1 = k
    · simp [dlookup, h]
    · simp [dlookup, h, ih]

theorem dlookup_setdefault {α : Type} (d : List (String × α))
    (k k2 : String) (v : α) :
    dlookup k (setdefault d k2 v)
      = if k2 = k then some ((dlookup k d).getD v) else dlookup k d := by
  unfold setdefault
  by_cases hp : (dlookup k2 d).isSome
  · rw [if_pos hp]
    by_cases hk : k2 = k
    · subst hk
      obtain ⟨w, hw⟩ := Option.isSome_iff_exists.mp hp
      simp [hw]
    · rw [if_neg hk]
  · rw [if_neg hp]
    rw [dlookup_append]
    by_cases hk : k2 = k
    · subst hk
      rw [Option.not_isSome_iff_eq_none] at hp
      simp [hp, dlookup]
    · have : dlookup k ([(k2, v)] : List (String × α)) = none := by
        simp [dlookup, hk]
      rw [this]
      rw [if_neg hk]
      cases dlookup k d <;> rfl

theorem setdefault_of_present {α : Type} (d : List (String × α))
    (k : String) (v : α) (h : (dlookup k d).isSome) :
    setdefault d k v = d := by
  unfold setdefault
  rw [if_pos h]

theorem dlookup_setdefault_isSome {α : Type} (d : List (String × α))
    (k : String) (v : α) : (dlookup k (setdefault d k v)).isSome := by
  rw [dlookup_setdefault, if_pos rfl]
  rfl

theorem dlookup_setdefault_isSome_mono {α : Type} (d : List (String × α))
    (k k2 : String) (v : α) (h : (dlookup k d).isSome) :
    (dlookup k (setdefault d k2 v)).isSome := by
  rw [dlookup_setdefault]
  by_cases hk : k2 = k
  · rw [if_pos hk]; rfl
  · rw [if_neg hk]; exact h

theorem dlookup_dappend_isSome {α : Type} (d : List (String × List α))
    (k k2 : String) (x : α) (h : (dlookup k d).isSome) :
    (dlookup k (dappend d k2 x)).isSome := by
  rw [dlookup_dappend]
  by_cases hk : k2 = k
  · rw [if_pos hk]
    cases hl : dlookup k d with
    | none => rw [hl] at h; simp at h
    | some l => rfl
  · rw [if_neg hk]; exact h

theorem dictGet_setdefault_nil {α : Type} (d : List (String × List α))
    (k k2 : String) :
    dictGet (setdefault d k2 []) k = dictGet d k := by
  unfold dictGet
  rw [dlookup_setdefault]
  by_cases hk : k2 = k
  · rw [if_pos hk]
    cases h : dlookup k d <;> simp [h]
  · rw [if_neg hk]

theorem dictGet_dappend_other {α : Type} (d : List (String × List α))
    (k k2 : String) (x : α) (h : k2 ≠ k) :
    dictGet (dappend d k2 x) k = dictGet d k := by
  unfold dictGet
  rw [dlookup_dappend, if_neg h]

theorem dictGet_dappend_self {α : Type} (d : List (String × List α))
    (k : String) (x : α) :
    dictGet (dappend d k x) k
      = match dlookup k d with
        | some l => l ++ [x]
        | none => [] := by
  unfold dictGet
  rw [dlookup_dappend, if_pos rfl]
  cases dlookup k d <;> rfl

theorem mem_dictGet_dappend {α : Type} (d : List (String × List α))
    (k k2 : String) (x y : α) (h : y ∈ dictGet d k) :
    y ∈ dictGet (dappend d k2 x) k := by
  by_cases hk : k2 = k
  · subst hk
    rw [dictGet_dappend_self]
    cases hl : dlookup k2 d with
    | none => unfold dictGet at h; rw [hl] at h; simp at h
    | some l =>
      unfold dictGet at h; rw [hl] at h
      simp only [Option.getD_some] at h
      simp [h]
  · rw [dictGet_dappend_other _ _ _ _ hk]
    exact h

theorem mem_dictGet_dappend_self {α : Type} (d : List (String × List α))
    (k : String) (x : α) (h : (dlookup k d).isSome) :
    x ∈ dictGet (dappend d k x) k := by
  rw [dictGet_dappend_self]
  obtain ⟨l, hl⟩ := Option.isSome_iff_exists.mp h
  rw [hl]
  simp

theorem mem_dictGet_setdefault_nil {α : Type} (d : List (String × List α))
    (k k2 : String) (y : α) (h : y ∈ dictGet d k) :
    y ∈ dictGet (setdefault d k2 []) k := by
  rw [dictGet_setdefault_nil]
  exact h

theorem process_entries_mem_mono (cfg : Config)
    (imageOf : String → Option String) (fu ft : String)
    (es : List FeedEntry) :
    ∀ (st : CycleState) (k y : String), y ∈ dictGet st.sent_items k →
      y ∈ dictGet (process_entries cfg imageOf fu ft es st).sent_items k := by
  induction es with
  | nil => intro st k y h; exact h
  | cons e rest ih =>
    intro st k y h
    cases he : entry_id e with
    | none => simp only [process_entries, he]; exact h
    | some eid =>
      simp only [process_entries, he]
      by_cases hseen : eid ∈ dictGet st.sent_items fu
      · rw [if_pos hseen]
        exact ih st k y h
      · rw [if_neg hseen]
        exact ih _ k y (mem_dictGet_dappend _ _ _ _ _ h)

theorem process_entries_key_mono (cfg : Config)
    (imageOf : String → Option String) (fu ft : String)
    (es : List FeedEntry) :
    ∀ (st : CycleState) (k : String), (dlookup k st.sent_items).isSome →
      (dlookup k
        (process_entries cfg imageOf fu ft es st).sent_items).isSome := by
  induction es with
  | nil => intro st k h; exact h
  | cons e rest ih =>
    intro st k h
    cases he : entry_id e with
    | none => simp only [process_entries, he]; exact h
    | some eid =>
      simp only [process_entries, he]
      by_cases hseen : eid ∈ dictGet st.sent_items fu
      · rw [if_pos hseen]
        exact ih st k h
      · rw [if_neg hseen]
        exact ih _ k (dlookup_dappend_isSome _ _ _ _ h)

theorem process_entries_reaches (cfg : Config)
    (imageOf : String → Option String) (fu ft : String) (e : FeedEntry)
    (eid : String) (es : List FeedEntry) :
    ∀ st : CycleState, e ∈ es → entry_id e = some eid →
      (∀ e2 ∈ es, (entry_id e2).isSome) →
      (dlookup fu st.sent_items).isSome →
      eid ∈ dictGet
        (process_entries cfg imageOf fu ft es st).sent_items fu := by
  induction es with
  | nil => intro st h; simp at h
  | cons e0 rest ih =>
    intro st hmem heid hids hkey
    obtain ⟨i0, hi0⟩ := Option.isSome_iff_exists.mp (hids e0 (by simp))
    simp only [process_entries, hi0]
    by_cases hseen : i0 ∈ dictGet st.sent_items fu
    · rw [if_pos hseen]
      rcases List.mem_cons.mp hmem with rfl | hmem2
      · have heq : eid = i0 := by
          rw [heid] at hi0
          exact Option.some.inj hi0
        subst heq
        exact process_entries_mem_mono cfg imageOf fu ft rest st fu eid hseen
      · exact ih st hmem2 heid (fun x hx => hids x (by simp [hx])) hkey
    · rw [if_neg hseen]
      rcases List.mem_cons.mp hmem with rfl | hmem2
      · have heq : eid = i0 := by
          rw [heid] at hi0
          exact Option.some.inj hi0
        subst heq
        refine process_entries_mem_mono cfg imageOf fu ft rest _ fu eid ?_
        exact mem_dictGet_dappend_self _ _ _ hkey
      · exact ih _ hmem2 heid (fun x hx => hids x (by simp [hx]))
          (dlookup_dappend_isSome _ _ _ _ hkey)

theorem process_entries_covered (cfg : Config)
    (imageOf : String → Option String) (fu ft : String)
    (es : List FeedEntry) :
    ∀ st : CycleState, (dlookup fu st.sent_items).isSome →
      coveredEntries
        (process_entries cfg imageOf fu ft es st).sent_items fu es := by
  induction es with
  | nil => intro st _; trivial
  | cons e0 rest ih =>
    intro st hkey
    cases hi : entry_id e0 with
    | none =>
      simp only [process_entries, hi, coveredEntries]
    | some i0 =>
      simp only [process_entries, hi, coveredEntries]
      by_cases hseen : i0 ∈ dictGet st.sent_items fu
      · rw [if_pos hseen]
        exact ⟨process_entries_mem_mono cfg imageOf fu ft rest st fu i0 hseen,
          ih st hkey⟩
      · rw [if_neg hseen]
        refine ⟨?_, ih _ (dlookup_dappend_isSome _ _ _ _ hkey)⟩
        exact process_entries_mem_mono cfg imageOf fu ft rest _ fu i0
          (mem_dictGet_dappend_self _ _ _ hkey)

theorem coveredEntries_mono (u : String) (es : List FeedEntry)
    (si si2 : SeenSet)
    (hmono : ∀ y, y ∈ dictGet si u → y ∈ dictGet si2 u)
    (h : coveredEntries si u es) : coveredEntries si2 u es := by
  induction es with
  | nil => trivial
  | cons e rest ih =>
    cases hi : entry_id e with
    | none => simp [coveredEntries, hi]
    | some eid =>
      simp only [coveredEntries, hi] at h ⊢
      exact ⟨hmono _ h.1, ih h.2⟩

theorem process_entries_skip (cfg : Config)
    (imageOf : String → Option String) (fu ft : String)
    (es : List FeedEntry) :
    ∀ st : CycleState, coveredEntries st.sent_items fu es →
      process_entries cfg imageOf fu ft es st = st := by
  induction es with
  | nil => intro st _; rfl
  | cons e rest ih =>
    intro st hcov
    cases hi : entry_id e with
    | none => simp [process_entries, hi]
    | some eid =>
      simp only [coveredEntries, hi] at hcov
      simp only [process_entries, hi]
      rw [if_pos hcov.1]
      exact ih st hcov.2

theorem process_feed_trim (cfg : Config) (imageOf : String → Option String)
    (fetchOf : String → Option Feed) (st : CycleState) (u : String)
    (h : pyStripEmpty u = true) :
    process_feed cfg imageOf fetchOf st u = st := by
  unfold process_feed
  rw [if_pos h]

theorem process_feed_none (cfg : Config) (imageOf : String → Option String)
    (fetchOf : String → Option Feed) (st : CycleState) (u : String)
    (h : fetchOf u = none) :
    process_feed cfg imageOf fetchOf st u = st := by
  unfold process_feed
  by_cases ht : pyStripEmpty u = true
  · rw [if_pos ht]
  · rw [if_neg ht, h]

theorem process_feed_empty (cfg : Config) (imageOf : String → Option String)
    (fetchOf : String → Option Feed) (st : CycleState) (u : String)
    (f : Feed) (ht : ¬ pyStripEmpty u = true) (hf : fetchOf u = some f)
    (he : f.entries.isEmpty = true) :
    process_feed cfg imageOf fetchOf st u = st := by
  unfold process_feed
  rw [if_neg ht, hf]
  simp [he]

theorem process_feed_some (cfg : Config) (imageOf : String → Option String)
    (fetchOf : String → Option Feed) (st : CycleState) (u : String)
    (f : Feed) (ht : ¬ pyStripEmpty u = true) (hf : fetchOf u = some f)
    (hne : f.entries.isEmpty = false) :
    process_feed cfg imageOf fetchOf st u
      = process_entries cfg imageOf u ((f.title?).getD u) f.entries
          ⟨setdefault st.sent_items u [],
            setdefault st.messages_by_feed ((f.title?).getD u) []⟩ := by
  unfold process_feed
  rw [if_neg ht, hf]
  simp [hne]

theorem process_feed_mem_mono (cfg : Config)
    (imageOf : String → Option String) (fetchOf : String → Option Feed)
    (st : CycleState) (u k y : String)
    (h : y ∈ dictGet st.sent_items k) :
    y ∈ dictGet (process_feed cfg imageOf fetchOf st u).sent_items k := by
  by_cases ht : pyStripEmpty u = true
  · rw [process_feed_trim cfg imageOf fetchOf st u ht]; exact h
  · cases hf : fetchOf u with
    | none => rw [process_feed_none cfg imageOf fetchOf st u hf]; exact h
    | some f =>
      cases hne : f.entries.isEmpty with
      | true => rw [process_feed_empty cfg imageOf fetchOf st u f ht hf hne]; exact h
      | false =>
        rw [process_feed_some cfg imageOf fetchOf st u f ht hf hne]
        exact process_entries_mem_mono cfg imageOf u _ f.entries _ k y
          (mem_dictGet_setdefault_nil _ _ _ _ h)

theorem process_feed_key_mono (cfg : Config)
    (imageOf : String → Option String) (fetchOf : String → Option Feed)
    (st : CycleState) (u k : String)
    (h : (dlookup k st.sent_items).isSome) :
    (dlookup k (process_feed cfg imageOf fetchOf st u).sent_items).isSome := by
  by_cases ht : pyStripEmpty u = true
  · rw [process_feed_trim cfg imageOf fetchOf st u ht]; exact h
  · cases hf : fetchOf u with
    | none => rw [process_feed_none cfg imageOf fetchOf st u hf]; exact h
    | some f =>
      cases hne : f.entries.isEmpty with
      | true => rw [process_feed_empty cfg imageOf fetchOf st u f ht hf hne]; exact h
      | false =>
        rw [process_feed_some cfg imageOf fetchOf st u f ht hf hne]
        exact process_entries_key_mono cfg imageOf u _ f.entries _ k
          (dlookup_setdefault_isSome_mono _ _ _ _ h)

theorem foldl_feeds_mem_mono (cfg : Config)
    (imageOf : String → Option String) (fetchOf : String → Option Feed)
    (fs : List String) :
    ∀ (st : CycleState) (k y : String), y ∈ dictGet st.sent_items k →
      y ∈ dictGet
        ((fs.foldl (process_feed cfg imageOf fetchOf) st)).sent_items k := by
  induction fs with
  | nil => intro st k y h; exact h
  | cons v rest ih =>
    intro st k y h
    exact ih _ k y (process_feed_mem_mono cfg imageOf fetchOf st v k y h)

theorem foldl_feeds_key_mono (cfg : Config)
    (imageOf : String → Option String) (fetchOf : String → Option Feed)
    (fs : List String) :
    ∀ (st : CycleState) (k : String), (dlookup k st.sent_items).isSome →
      (dlookup k
        ((fs.foldl (process_feed cfg imageOf fetchOf) st)).sent_items).isSome := by
  induction fs with
  | nil => intro st k h; exact h
  | cons v rest ih =>
    intro st k h
    exact ih _ k (process_feed_key_mono cfg imageOf fetchOf st v k h)

theorem check_feeds_covers (cfg : Config)
    (imageOf : String → Option String) (fetchOf : String → Option Feed)
    (fs : List String) :
    ∀ (st : CycleState) (u : String) (f : Feed), u ∈ fs →
      ¬ pyStripEmpty u = true → fetchOf u = some f → f.entries.isEmpty = false →
      coveredEntries
          ((fs.foldl (process_feed cfg imageOf fetchOf) st)).sent_items u
          f.entries
        ∧ (dlookup u
            ((fs.foldl (process_feed cfg imageOf fetchOf) st)).sent_items).isSome := by
  induction fs with
  | nil => intro st u f h; simp at h
  | cons v rest ih =>
    intro st u f hu ht hf hne
    rcases List.mem_cons.mp hu with rfl | hu2
    · simp only [List.foldl_cons]
      have hpf := process_feed_some cfg imageOf fetchOf st u f ht hf hne
      have hkey0 :
          (dlookup u (setdefault st.sent_items u ([] : List String))).isSome :=
        dlookup_setdefault_isSome _ _ _
      have hcov1 : coveredEntries
          (process_feed cfg imageOf fetchOf st u).sent_items u f.entries := by
        rw [hpf]
        exact process_entries_covered cfg imageOf u _ f.entries _ hkey0
      have hkey1 :
          (dlookup u (process_feed cfg imageOf fetchOf st u).sent_items).isSome := by
        rw [hpf]
        exact process_entries_key_mono cfg imageOf u _ f.entries _ u hkey0
      refine ⟨coveredEntries_mono u f.entries _ _
        (fun y hy => foldl_feeds_mem_mono cfg imageOf fetchOf rest _ u y hy)
        hcov1, foldl_feeds_key_mono cfg imageOf fetchOf rest _ u hkey1⟩
    · simp only [List.foldl_cons]
      exact ih _ u f hu2 ht hf hne

theorem process_entries_count_le (cfg : Config)
    (imageOf : String → Option String) (fu ft u eid : String)
    (es : List FeedEntry) :
    ∀ st : CycleState, (dictGet st.sent_items u).count eid ≤ 1 →
      (dictGet
        (process_entries cfg imageOf fu ft es st).sent_items u).count eid
        ≤ 1 := by
  induction es with
  | nil => intro st h; exact h
  | cons e rest ih =>
    intro st h
    cases hi : entry_id e with
    | none => simp only [process_entries, hi]; exact h
    | some i0 =>
      simp only [process_entries, hi]
      by_cases hseen : i0 ∈ dictGet st.sent_items fu
      · rw [if_pos hseen]
        exact ih st h
      · rw [if_neg hseen]
        refine ih _ ?_
        show (dictGet (dappend st.sent_items fu i0) u).count eid ≤ 1
        by_cases hk : fu = u
        · subst hk
          rw [dictGet_dappend_self]
          cases hl : dlookup fu st.sent_items with
          | none =>
            show (([] : List String)).count eid ≤ 1
            simp
          | some l =>
            show ((l ++ [i0]).count eid) ≤ 1
            have hg : dictGet st.sent_items fu = l := by
              unfold dictGet
              rw [hl]
              rfl
            rw [List.count_append]
            by_cases hie : i0 = eid
            · subst hie
              have hz : l.count i0 = 0 :=
                List.count_eq_zero.mpr (hg ▸ hseen)
              simp [hz, List.count_singleton]
            · have h1 : ([i0] : List String).count eid = 0 := by
                simp [List.count_singleton, hie]
              rw [hg] at h
              omega
        · rw [dictGet_dappend_other _ _ _ _ hk]
          exact h

theorem process_feed_count_le (cfg : Config)
    (imageOf : String → Option String) (fetchOf : String → Option Feed)
    (st : CycleState) (v u eid : String)
    (h : (dictGet st.sent_items u).count eid ≤ 1) :
    (dictGet
      (process_feed cfg imageOf fetchOf st v).sent_items u).count eid ≤ 1 := by
  by_cases ht : pyStripEmpty v = true
  · rw [process_feed_trim cfg imageOf fetchOf st v ht]; exact h
  · cases hf : fetchOf v with
    | none => rw [process_feed_none cfg imageOf fetchOf st v hf]; exact h
    | some f =>
      cases hne : f.entries.isEmpty with
      | true => rw [process_feed_empty cfg imageOf fetchOf st v f ht hf hne]; exact h
      | false =>
        rw [process_feed_some cfg imageOf fetchOf st v f ht hf hne]
        refine process_entries_count_le cfg imageOf v _ u eid f.entries _ ?_
        show (dictGet (setdefault st.sent_items v []) u).count eid ≤ 1
        rw [dictGet_setdefault_nil]
        exact h

theorem foldl_feeds_count_le (cfg : Config)
    (imageOf : String → Option String) (fetchOf : String → Option Feed)
    (fs : List String) :
    ∀ (st : CycleState) (u eid : String),
      (dictGet st.sent_items u).count eid ≤ 1 →
      (dictGet
        ((fs.foldl (process_feed cfg imageOf fetchOf) st)).sent_items
        u).count eid ≤ 1 := by
  induction fs with
  | nil => intro st u eid h; exact h
  | cons v rest ih =>
    intro st u eid h
    exact ih _ u eid (process_feed_count_le cfg imageOf fetchOf st v u eid h)

theorem check_feeds_reaches (cfg : Config)
    (imageOf : String → Option String) (fetchOf : String → Option Feed)
    (u : String) (f : Feed) (e : FeedEntry) (eid : String)
    (fs : List String) :
    ∀ st : CycleState, u ∈ fs → ¬ pyStripEmpty u = true →
      fetchOf u = some f → e ∈ f.entries → entry_id e = some eid →
      (∀ e2 ∈ f.entries, (entry_id e2).isSome) →
      eid ∈ dictGet
        ((fs.foldl (process_feed cfg imageOf fetchOf) st)).sent_items u := by
  induction fs with
  | nil => intro st h; simp at h
  | cons v rest ih =>
    intro st hu ht hf he heid hids
    rcases List.mem_cons.mp hu with rfl | hu2
    · simp only [List.foldl_cons]
      have hne : f.entries.isEmpty = false := by
        cases hfe : f.entries with
        | nil => rw [hfe] at he; simp at he
        | cons a b => rfl
      have hstep : eid ∈ dictGet
          (process_feed cfg imageOf fetchOf st u).sent_items u := by
        rw [process_feed_some cfg imageOf fetchOf st u f ht hf hne]
        exact process_entries_reaches cfg imageOf u _ e eid f.entries _
          he heid hids (dlookup_setdefault_isSome _ _ _)
      exact foldl_feeds_mem_mono cfg imageOf fetchOf rest _ u eid hstep
    · simp only [List.foldl_cons]
      exact ih _ hu2 ht hf he heid hids

/-- C2. For every feed URL in the configured list and every fetched entry
whose identifier is not yet recorded for that URL, one cycle records the
identifier exactly once in the SeenSet of that URL, for any transport
oracle (send success or failure); identifiers already present for any feed
are never removed. The hypotheses state the feed-source contract of the
cycle reaching the entry: the URL is not blank, the fetch succeeds, and
every entry of the feed exposes an identifier or a link. -/
theorem c2_dedup_exactly_once (cfg : Config)
    (imageOf : String → Option String) (fetchOf : String → Option Feed)
    (photoOk : String → String → Bool) (feeds : List String)
    (si0 : SeenSet) (u : String) (f : Feed) (e : FeedEntry) (eid : String)
    (hu : u ∈ feeds) (ht : ¬ pyStripEmpty u = true)
    (hf : fetchOf u = some f) (he : e ∈ f.entries)
    (heid : entry_id e = some eid)
    (hids : ∀ e2 ∈ f.entries, (entry_id e2).isSome)
    (hnew : eid ∉ dictGet si0 u) :
    (dictGet (run_cycle cfg imageOf fetchOf photoOk feeds si0).1 u).count eid
        = 1
      ∧ ∀ (k y : String), y ∈ dictGet si0 k →
          y ∈ dictGet (run_cycle cfg imageOf fetchOf photoOk feeds si0).1 k := by
  have hrc : (run_cycle cfg imageOf fetchOf photoOk feeds si0).1
      = (feeds.foldl (process_feed cfg imageOf fetchOf)
          ⟨si0, []⟩).sent_items := rfl
  rw [hrc]
  constructor
  · have hmem := check_feeds_reaches cfg imageOf fetchOf u f e eid feeds
      ⟨si0, []⟩ hu ht hf he heid hids
    have hinit : (dictGet (⟨si0, []⟩ : CycleState).sent_items u).count eid
        ≤ 1 := by
      have hz : (dictGet si0 u).count eid = 0 := List.count_eq_zero.mpr hnew
      show (dictGet si0 u).count eid ≤ 1
      omega
    have hle := foldl_feeds_count_le cfg imageOf fetchOf feeds ⟨si0, []⟩
      u eid hinit
    have hpos := List.count_pos_iff.mpr hmem
    omega
  · intro k y hy
    exact foldl_feeds_mem_mono cfg imageOf fetchOf feeds ⟨si0, []⟩ k y hy

/-- Witness for `c2_dedup_exactly_once` on a concrete one-feed cycle. -/
theorem c2_dedup_exactly_once_witness :
    (dictGet (run_cycle cfgG noImage wFetch okFail [("u")] []).1
      ("u")).count ("id1") = 1 :=
  (c2_dedup_exactly_once cfgG noImage wFetch okFail [("u")] [] ("u") wFeed
    ⟨some ("id1"), some ("l"), some ("T"), none, none⟩ ("id1")
    (by simp) (by decide) rfl (by simp [wFeed]) rfl
    (by decide) (by simp [dictGet, dlookup])).1

theorem setdefault_nil_values {α : Type} (d : List (String × List α))
    (k : String) (h : ∀ p ∈ d, p.2 = ([] : List α)) :
    ∀ p ∈ setdefault d k [], p.2 = ([] : List α) := by
  intro p hp
  unfold setdefault at hp
  split at hp
  · exact h p hp
  · rcases List.mem_append.mp hp with h1 | h1
    · exact h p h1
    · simp only [List.mem_singleton] at h1
      rw [h1]

theorem send_grouped_messages_nil (cfg : Config)
    (mbf : List (String × List Entry))
    (h : ∀ p ∈ mbf, p.2 = ([] : List Entry)) :
    send_grouped_messages cfg mbf = [] := by
  unfold send_grouped_messages
  rw [List.flatten_eq_nil_iff]
  intro l hl
  rw [List.mem_map] at hl
  obtain ⟨p, hp, rfl⟩ := hl
  rw [h p hp]
  simp [grouped_feed_messages]

theorem send_single_messages_nil (cfg : Config)
    (photoOk : String → String → Bool)
    (mbf : List (String × List Entry))
    (h : ∀ p ∈ mbf, p.2 = ([] : List Entry)) :
    send_single_messages cfg photoOk mbf = [] := by
  unfold send_single_messages
  rw [List.flatten_eq_nil_iff]
  intro l hl
  rw [List.mem_map] at hl
  obtain ⟨p, hp, rfl⟩ := hl
  rw [h p hp]
  simp

theorem second_pass_skips (cfg : Config)
    (imageOf : String → Option String) (fetchOf : String → Option Feed)
    (si1 : SeenSet) :
    ∀ (fs : List String) (st : CycleState),
      (∀ u ∈ fs, ∀ f : Feed, ¬ pyStripEmpty u = true → fetchOf u = some f →
        f.entries.isEmpty = false →
        coveredEntries si1 u f.entries ∧ (dlookup u si1).isSome) →
      st.sent_items = si1 →
      (∀ p ∈ st.messages_by_feed, p.2 = ([] : List Entry)) →
      ((fs.foldl (process_feed cfg imageOf fetchOf) st).sent_items = si1 ∧
        ∀ p ∈ (fs.foldl (process_feed cfg imageOf fetchOf)
            st).messages_by_feed, p.2 = ([] : List Entry)) := by
  intro fs
  induction fs with
  | nil => intro st _ h1 h2; exact ⟨h1, h2⟩
  | cons v rest ih =>
    intro st hcov h1 h2
    simp only [List.foldl_cons]
    by_cases ht : pyStripEmpty v = true
    · rw [process_feed_trim cfg imageOf fetchOf st v ht]
      exact ih _ (fun u hu => hcov u (by simp [hu])) h1 h2
    · cases hf : fetchOf v with
      | none =>
        rw [process_feed_none cfg imageOf fetchOf st v hf]
        exact ih _ (fun u hu => hcov u (by simp [hu])) h1 h2
      | some f =>
        cases hne : f.entries.isEmpty with
        | true =>
          rw [process_feed_empty cfg imageOf fetchOf st v f ht hf hne]
          exact ih _ (fun u hu => hcov u (by simp [hu])) h1 h2
        | false =>
          rw [process_feed_some cfg imageOf fetchOf st v f ht hf hne]
          obtain ⟨hcv, hkey⟩ := hcov v (by simp) f ht hf hne
          have hsd : setdefault st.sent_items v ([] : List String) = si1 := by
            rw [h1]
            exact setdefault_of_present _ _ _ hkey
          have hskip : process_entries cfg imageOf v ((f.title?).getD v)
              f.entries
              ⟨setdefault st.sent_items v [],
                setdefault st.messages_by_feed ((f.title?).getD v) []⟩
              = ⟨setdefault st.sent_items v [],
                  setdefault st.messages_by_feed ((f.title?).getD v) []⟩ := by
            refine process_entries_skip cfg imageOf v _ f.entries _ ?_
            show coveredEntries (setdefault st.sent_items v []) v f.entries
            rw [hsd]
            exact hcv
          rw [hskip]
          refine ih _ (fun u hu => hcov u (by simp [hu])) hsd ?_
          exact setdefault_nil_values st.messages_by_feed _ h2

/-- C5. Running a full cycle a second time against an unchanged feed set,
starting from the SeenSet produced by the first cycle, produces zero
outbound transport calls on the second run, in both the grouped and the
single strategy (the strategy and both transport oracles are arbitrary). -/
theorem c5_second_cycle_silent (cfg : Config)
    (imageOf : String → Option String) (fetchOf : String → Option Feed)
    (photoOk photoOk2 : String → String → Bool) (feeds : List String)
    (si0 : SeenSet) :
    (run_cycle cfg imageOf fetchOf photoOk2 feeds
      (run_cycle cfg imageOf fetchOf photoOk feeds si0).1).2 = [] := by
  have hcov := check_feeds_covers cfg imageOf fetchOf feeds ⟨si0, []⟩
  have hsp := second_pass_skips cfg imageOf fetchOf
    (feeds.foldl (process_feed cfg imageOf fetchOf) ⟨si0, []⟩).sent_items
    feeds
    ⟨(feeds.foldl (process_feed cfg imageOf fetchOf) ⟨si0, []⟩).sent_items, []⟩
    (fun u hu f ht hf hne => hcov u f hu ht hf hne)
    rfl (by simp)
  have heq : (run_cycle cfg imageOf fetchOf photoOk2 feeds
      (run_cycle cfg imageOf fetchOf photoOk feeds si0).1).2
      = (if cfg.grouped then
          (send_grouped_messages cfg
            (feeds.foldl (process_feed cfg imageOf fetchOf)
              ⟨(feeds.foldl (process_feed cfg imageOf fetchOf)
                  (⟨si0, []⟩ : CycleState)).sent_items,
                []⟩).messages_by_feed).map (fun m => SendEvent.text m none)
        else send_single_messages cfg photoOk2
          (feeds.foldl (process_feed cfg imageOf fetchOf)
            ⟨(feeds.foldl (process_feed cfg imageOf fetchOf)
                (⟨si0, []⟩ : CycleState)).sent_items,
              []⟩).messages_by_feed) := rfl
  rw [heq]
  have hmbf := hsp.2
  cases hg : cfg.grouped
  · simp only [hg, Bool.false_eq_true, if_false]
    exact send_single_messages_nil cfg photoOk2 _ hmbf
  · simp only [hg, if_true]
    rw [send_grouped_messages_nil cfg _ hmbf]
    rfl

/-- C6. A fetch/parse failure of one feed is absorbed inside the cycle:
the whole cycle (returned SeenSet and every transport call) is exactly
what it would have been with the failing feed removed from the list, so
every other feed is still fetched, diffed and dispatched and the cycle
still reaches the persist step with its SeenSet. -/
theorem c6_feed_error_isolated (cfg : Config)
    (imageOf : String → Option String) (fetchOf : String → Option Feed)
    (photoOk : String → String → Bool) (pre post : List String)
    (bad : String) (si0 : SeenSet) (hbad : fetchOf bad = none) :
    run_cycle cfg imageOf fetchOf photoOk (pre ++ bad :: post) si0
      = run_cycle cfg imageOf fetchOf photoOk (pre ++ post) si0 := by
  have hcf : check_feeds cfg imageOf fetchOf (pre ++ bad :: post) si0
      = check_feeds cfg imageOf fetchOf (pre ++ post) si0 := by
    unfold check_feeds
    rw [List.foldl_append, List.foldl_append, List.foldl_cons,
      process_feed_none cfg imageOf fetchOf _ bad hbad]
  unfold run_cycle
  rw [hcf]

/-- Witness for `c6_feed_error_isolated` at a concrete failing fetch. -/
theorem c6_feed_error_isolated_witness :
    run_cycle cfgG noImage noFeed okFail ([] ++ ("b") :: []) []
      = run_cycle cfgG noImage noFeed okFail ([] ++ []) [] :=
  c6_feed_error_isolated cfgG noImage noFeed okFail [] [] ("b") [] rfl
